import Mathlib

/-!
Verification of the hacktheconn connection-selection core.

The Go sources are shallowly embedded: stateful methods become explicit
state-passing functions, Go `int`/`time.Duration` become `Int`
(nanoseconds for durations unless noted), `float64` arithmetic of the
calculators is modelled by exact rationals, fallible operations return
`Except`, and a Go `panic` at construction time is modelled as an
`Except.error`.
-/

set_option maxHeartbeats 1000000

namespace HackTheConn

/-- Abstract policy-level errors.  `noTransportsAvailable` models the
`ErrNoTransports` sentinel returned by the round-robin and
least-response-time strategies, and the `fmt.Errorf("no transports
available")` value returned by the fill-holes strategy. -/
inductive StrategyError where
  | noTransportsAvailable
deriving DecidableEq, Repr

/-- Result of one HTTP exchange: a response, a transport error, or a
panic-equivalent unwind of the goroutine (a deferred call still runs). -/
inductive Outcome (E R : Type) where
  | ok (r : R)
  | err (e : E)
  | unwind
deriving DecidableEq, Repr

/-- Embedding of the Go `strategy` interface: `Acquire` may change the
policy state and yields a handle or an error, `Release` only changes
state.  `S` is the policy state, `H` the transport-handle type. -/
structure Strategy (S H E : Type) where
  acquire : S → Except E H × S
  release : H → S → S

/-- Embedding of `StrategyTransport.RoundTrip` (part_001): acquire a
handle, propagate an acquire error untouched, otherwise execute the
exchange through the handle and release it.  The Go `defer
t.strategy.Release(transport)` runs on every exit path including panic
unwinds, so the released state is threaded through even when the
exchange result is `Outcome.unwind`. -/
def StrategyTransport.RoundTrip {S H E R Req : Type} (st : Strategy S H E)
    (exec : H → Req → Outcome E R) (s : S) (req : Req) : Outcome E R × S :=
  match st.acquire s with
  | (Except.error e, s1) => (Outcome.err e, s1)
  | (Except.ok transport, s1) => (exec transport req, st.release transport s1)

/-- Observable events of a strategy, used to count Acquire/Release calls. -/
inductive Event (H E : Type) where
  | acquired (h : H)
  | acquireFailed (e : E)
  | released (h : H)
deriving DecidableEq, Repr

/-- Instrument a strategy so that its state also records the list of
Acquire/Release events, in order. -/
def withLog {S H E : Type} (st : Strategy S H E) :
    Strategy (S × List (Event H E)) H E where
  acquire := fun p =>
    match st.acquire p.1 with
    | (Except.ok h, s1) => (Except.ok h, (s1, p.2 ++ [Event.acquired h]))
    | (Except.error e, s1) => (Except.error e, (s1, p.2 ++ [Event.acquireFailed e]))
  release := fun h p => (st.release h p.1, p.2 ++ [Event.released h])

/-- Round-robin policy state (strategy_round_robin.go): the handle list
and the `lastSelected` cursor, a Go `int` starting at `-1`. -/
structure RoundRobinStrategy (H : Type) where
  transports : List H
  lastSelected : Int
deriving Repr

/-- Embedding of `NewRoundRobinStrategy`: cursor starts before the first
handle. -/
def NewRoundRobinStrategy {H : Type} (transports : List H) : RoundRobinStrategy H :=
  { transports := transports, lastSelected := -1 }

/-- Embedding of `RoundRobinStrategy.Acquire`.  Go's `%` on `int` is
truncated division, i.e. `Int.tmod`.  The selected index is always in
range (the cursor is `≥ -1`), so `List.getD` never falls back to its
default on reachable states. -/
def RoundRobinStrategy.Acquire {H : Type} [Inhabited H] (rr : RoundRobinStrategy H) :
    Except StrategyError H × RoundRobinStrategy H :=
  if rr.transports.length = 0 then
    (Except.error StrategyError.noTransportsAvailable, rr)
  else
    let ls := Int.tmod (rr.lastSelected + 1) rr.transports.length
    (Except.ok (rr.transports.getD ls.toNat default),
     { rr with lastSelected := ls })

/-- Embedding of `RoundRobinStrategy.Release`: a no-op. -/
def RoundRobinStrategy.Release {H : Type} (rr : RoundRobinStrategy H) (_ : H) :
    RoundRobinStrategy H :=
  rr

/-- State after `n` Acquire calls on a round-robin policy. -/
def rrRun {H : Type} [Inhabited H] (rr : RoundRobinStrategy H) : Nat → RoundRobinStrategy H
  | 0 => rr
  | n + 1 => ((rrRun rr n).Acquire).2

/-- The scan both `FillHolesStrategy.Acquire` (part_004) and
`LeastResponseTimeStrategy.Acquire` (strategy_least_response_time.go)
perform: walk the list keeping the first minimum seen, replacing it only
on a strictly smaller value.  `i` is the index of the head of the
remaining list, `minIndex`/`minCount` the accumulator. -/
def minScanLoop : Nat → Nat → Int → List Int → Nat × Int
  | _, minIndex, minCount, [] => (minIndex, minCount)
  | i, minIndex, minCount, c :: rest =>
    if c < minCount then minScanLoop (i + 1) i c rest
    else minScanLoop (i + 1) minIndex minCount rest

/-- The Go loops initialize the accumulator from element 0 and then scan
the whole list (the first iteration compares element 0 with itself). -/
def minScan (counts : List Int) : Nat × Int :=
  match counts with
  | [] => (0, 0)
  | c :: _ => minScanLoop 0 0 c counts

/-- Fill-holes policy state (part_004): the handle list and the
per-handle in-flight request counters (Go `[]int`). -/
structure FillHolesStrategy (H : Type) where
  transports : List H
  requestCounts : List Int
deriving Repr

/-- Embedding of `NewFillHolesStrategy`: `make([]int, len(transports))`
zero-initializes every counter. -/
def NewFillHolesStrategy {H : Type} (transports : List H) : FillHolesStrategy H :=
  { transports := transports
    requestCounts := List.replicate transports.length 0 }

/-- Embedding of `FillHolesStrategy.Acquire`: guard the empty handle
list, scan the counters for the first minimum, increment that counter
and return the corresponding handle. -/
def FillHolesStrategy.Acquire {H : Type} [Inhabited H] (fh : FillHolesStrategy H) :
    Except StrategyError H × FillHolesStrategy H :=
  if fh.transports.length = 0 then
    (Except.error StrategyError.noTransportsAvailable, fh)
  else
    let m := minScan fh.requestCounts
    (Except.ok (fh.transports.getD m.1 default),
     { fh with requestCounts :=
        fh.requestCounts.set m.1 (fh.requestCounts.getD m.1 0 + 1) })

/-- Index of the first handle equal to `t`, as the `for ... range` loop
with `break` in `FillHolesStrategy.Release` finds it. -/
def findTransportIdx {H : Type} [DecidableEq H] : List H → H → Option Nat
  | [], _ => none
  | x :: xs, t => if x = t then some 0 else (findTransportIdx xs t).map (fun i => i + 1)

/-- Embedding of `FillHolesStrategy.Release`: decrement the counter of
the first matching handle, clamping a negative result to 0; no match is
a no-op. -/
def FillHolesStrategy.Release {H : Type} [DecidableEq H] (fh : FillHolesStrategy H)
    (t : H) : FillHolesStrategy H :=
  match findTransportIdx fh.transports t with
  | none => fh
  | some i =>
    let c := fh.requestCounts.getD i 0 - 1
    { fh with requestCounts := fh.requestCounts.set i (if c < 0 then 0 else c) }

/-- One policy operation: an Acquire or a Release of a given handle. -/
inductive FHOp (H : Type) where
  | acquire
  | release (t : H)

/-- Run a sequence of operations against a fill-holes policy. -/
def runFH {H : Type} [DecidableEq H] [Inhabited H] (fh : FillHolesStrategy H) :
    List (FHOp H) → FillHolesStrategy H
  | [] => fh
  | FHOp.acquire :: rest => runFH (fh.Acquire).2 rest
  | FHOp.release t :: rest => runFH (fh.Release t) rest

/-- Embedding of the `leastResponseTimeRoundTripper` wrapper struct
(strategy_least_response_time.go): the wrapped handle, its current
response-time estimate (`time.Duration`, nanoseconds) and the mutable
state captured by its calculator closure. -/
structure leastResponseTimeRoundTripper (H C : Type) where
  roundTripper : H
  responseTime : Int
  calcState : C
deriving DecidableEq, Inhabited

/-- Embedding of `leastResponseTimeRoundTripper.RoundTrip`: execute the
exchange through the wrapped handle, then unconditionally update the
estimate with the calculator applied to the measured elapsed time
(`time.Since(start)`, passed in as `elapsed`), and return the exchange
result unchanged.  The stateful Go calculator closure is modelled as a
step function from calculator state and sample to new estimate and
state. -/
def leastResponseTimeRoundTripper.RoundTrip {H C E Resp Req : Type}
    (responseTimeCalculator : C → Int → Int × C) (exec : H → Req → Except E Resp)
    (elapsed : Int) (l : leastResponseTimeRoundTripper H C) (req : Req) :
    Except E Resp × leastResponseTimeRoundTripper H C :=
  let res := exec l.roundTripper req
  let upd := responseTimeCalculator l.calcState elapsed
  (res, { l with responseTime := upd.1, calcState := upd.2 })

/-- Embedding of `LeastResponseTimeLastResponseTimeCalculator`: the
estimate is the most recent sample; no state. -/
def LeastResponseTimeLastResponseTimeCalculator : Unit → Int → Int × Unit :=
  fun s lastRequestDuration => (lastRequestDuration, s)

/-- Embedding of `NewLeastResponseTimeStrategy`: wrap every handle with
a zero (unmeasured) estimate and the initial calculator state. -/
def NewLeastResponseTimeStrategy {H C : Type} (transports : List H) (c0 : C) :
    List (leastResponseTimeRoundTripper H C) :=
  transports.map (fun rt =>
    { roundTripper := rt, responseTime := 0, calcState := c0 })

/-- Embedding of `LeastResponseTimeStrategy.Acquire`: guard the empty
list, then the same first-minimum scan as fill-holes, over the
wrappers' `responseTime` fields; no state is modified. -/
def LeastResponseTimeStrategy.Acquire {H C : Type} [Inhabited H] [Inhabited C]
    (lr : List (leastResponseTimeRoundTripper H C)) :
    Except StrategyError (leastResponseTimeRoundTripper H C) ×
      List (leastResponseTimeRoundTripper H C) :=
  if lr.length = 0 then (Except.error StrategyError.noTransportsAvailable, lr)
  else
    let m := minScan (lr.map (fun w => w.responseTime))
    (Except.ok (lr.getD m.1 default), lr)

/-- Embedding of `LeastResponseTimeStrategy.Release`: a no-op. -/
def LeastResponseTimeStrategy.Release {H C : Type}
    (lr : List (leastResponseTimeRoundTripper H C))
    (_ : leastResponseTimeRoundTripper H C) :
    List (leastResponseTimeRoundTripper H C) :=
  lr

/-- Calculator construction failures.  The Go constructors `panic`; the
spec names the conditions `InvalidWeight` and `InvalidWindowSize`. -/
inductive CalcError where
  | invalidWeight
  | invalidWindowSize
deriving DecidableEq, Repr

/-- State captured by the weighted-average calculator closure.  Go
computes in `float64` and stores `time.Duration`; both are modelled by
exact rationals (the examples' values are exact in either arithmetic). -/
structure WeightedAverageState where
  weight : Rat
  previousResponseTime : Rat
deriving DecidableEq, Repr

/-- Embedding of `LeastResponseTimeWeightedAverageCalculator`'s
construction: `weight < 0 || weight > 1` panics before any sample is
processed; otherwise the closure starts with a zero previous estimate. -/
def LeastResponseTimeWeightedAverageCalculator (weight : Rat) :
    Except CalcError WeightedAverageState :=
  if weight < 0 ∨ 1 < weight then Except.error CalcError.invalidWeight
  else Except.ok { weight := weight, previousResponseTime := 0 }

/-- One application of the weighted-average closure: a zero previous
estimate is seeded with the sample; otherwise
`weight*sample + (1-weight)*previous`. -/
def weightedAverageStep (st : WeightedAverageState) (lastRequestDuration : Rat) :
    Rat × WeightedAverageState :=
  if st.previousResponseTime = 0 then
    (lastRequestDuration, { st with previousResponseTime := lastRequestDuration })
  else
    let nv := st.weight * lastRequestDuration + (1 - st.weight) * st.previousResponseTime
    (nv, { st with previousResponseTime := nv })

/-- The sequence of estimates the weighted-average closure returns on a
sample sequence. -/
def weightedAverageOutputs (st : WeightedAverageState) : List Rat → List Rat
  | [] => []
  | s :: rest =>
    (weightedAverageStep st s).1 ::
      weightedAverageOutputs (weightedAverageStep st s).2 rest

/-- State captured by the moving-average calculator closure: circular
buffer, write index, fill count and running sum. -/
structure MovingAverageState where
  windowSize : Int
  buffer : List Rat
  index : Nat
  count : Nat
  sum : Rat
deriving DecidableEq, Repr

/-- Embedding of `LeastResponseTimeMovingAverageCalculator`'s
construction: `windowSize <= 0` panics before any sample is processed;
otherwise the closure starts with a zeroed buffer, index, count and
sum. -/
def LeastResponseTimeMovingAverageCalculator (windowSize : Int) :
    Except CalcError MovingAverageState :=
  if windowSize ≤ 0 then Except.error CalcError.invalidWindowSize
  else
    Except.ok { windowSize := windowSize
                buffer := List.replicate windowSize.toNat 0
                index := 0, count := 0, sum := 0 }

/-- One application of the moving-average closure: overwrite the oldest
slot, maintain the running sum and fill count, return the mean of the
filled window. -/
def movingAverageStep (st : MovingAverageState) (lastRequestDuration : Rat) :
    Rat × MovingAverageState :=
  let sum1 := st.sum - st.buffer.getD st.index 0
  let buffer1 := st.buffer.set st.index lastRequestDuration
  let sum2 := sum1 + lastRequestDuration
  let index1 := (st.index + 1) % st.windowSize.toNat
  let count1 := if st.count < st.windowSize.toNat then st.count + 1 else st.count
  (sum2 / (count1 : Rat),
   { st with buffer := buffer1, index := index1, count := count1, sum := sum2 })

/-- Result of parsing a connection descriptor, the part of `url.Parse`
the factory inspects.  Parsing itself is an external collaborator and is
passed in as a function. -/
structure ParsedURL where
  scheme : String
  rest : String
deriving DecidableEq, Repr

/-- Factory-level errors: an unparseable descriptor, or a failed SOCKS5
dialer construction. -/
inductive FactoryError where
  | invalidDescriptor
  | dialerConstruction
deriving DecidableEq, Repr

/-- The observable configuration of a transport the factory builds: the
fields of the `http.Transport` literals in part_005 and the
`DirectTransport` definition. -/
inductive TransportConfig where
  | direct (maxConnsPerHost maxIdleConns : Nat)
  | httpProxy (proxyURL : String) (maxConnsPerHost : Nat)
  | socks5 (socksAddr : String) (insecureSkipVerify : Bool) (maxConnsPerHost : Nat)
deriving DecidableEq, Repr

/-- Embedding of `DirectTransport`: no proxy, `MaxConnsPerHost: 1`,
`MaxIdleConns: 1`. -/
def DirectTransport : Except FactoryError TransportConfig :=
  Except.ok (TransportConfig.direct 1 1)

/-- Embedding of `ProxyHTTPTransport`: re-parse the proxy URL, then a
transport routing through it with `MaxConnsPerHost: 1`. -/
def ProxyHTTPTransport (parse : String → Option ParsedURL) (proxyURL : String) :
    Except FactoryError TransportConfig :=
  match parse proxyURL with
  | none => Except.error FactoryError.invalidDescriptor
  | some _ => Except.ok (TransportConfig.httpProxy proxyURL 1)

/-- Embedding of `ProxySocks5Transport`: build the SOCKS5 dialer for
the raw descriptor (an external collaborator that may fail), then a
transport dialing through it with `InsecureSkipVerify: true` and
`MaxConnsPerHost: 1`. -/
def ProxySocks5Transport (mkDialer : String → Except FactoryError Unit)
    (socksAddr : String) : Except FactoryError TransportConfig :=
  match mkDialer socksAddr with
  | Except.error _ => Except.error FactoryError.dialerConstruction
  | Except.ok _ => Except.ok (TransportConfig.socks5 socksAddr true 1)

/-- Embedding of `DefaultTransportFactory` (part_002, the version with
the `direct` case; src/transport.go carries an older copy without it):
dispatch on the parsed scheme. -/
def DefaultTransportFactory (parse : String → Option ParsedURL)
    (mkDialer : String → Except FactoryError Unit) (proxyURL : String) :
    Except FactoryError TransportConfig :=
  match parse proxyURL with
  | none => Except.error FactoryError.invalidDescriptor
  | some u =>
    if u.scheme = "http" ∨ u.scheme = "https" then ProxyHTTPTransport parse proxyURL
    else if u.scheme = "direct" then DirectTransport
    else ProxySocks5Transport mkDialer proxyURL

theorem RoundRobinStrategy.Acquire_transports {H : Type} [Inhabited H]
    (rr : RoundRobinStrategy H) : (rr.Acquire).2.transports = rr.transports := by
  unfold RoundRobinStrategy.Acquire
  split <;> rfl

theorem RoundRobinStrategy.Acquire_lastSelected {H : Type} [Inhabited H]
    (rr : RoundRobinStrategy H) (h : rr.transports.length ≠ 0) :
    (rr.Acquire).2.lastSelected = Int.tmod (rr.lastSelected + 1) rr.transports.length := by
  unfold RoundRobinStrategy.Acquire
  rw [if_neg h]

theorem RoundRobinStrategy.Acquire_fst {H : Type} [Inhabited H]
    (rr : RoundRobinStrategy H) (h : rr.transports.length ≠ 0) :
    (rr.Acquire).1 = Except.ok
      (rr.transports.getD
        (Int.tmod (rr.lastSelected + 1) rr.transports.length).toNat default) := by
  unfold RoundRobinStrategy.Acquire
  rw [if_neg h]

theorem rrRun_transports {H : Type} [Inhabited H] (rr : RoundRobinStrategy H) :
    ∀ n, (rrRun rr n).transports = rr.transports := by
  intro n
  induction n with
  | zero => rfl
  | succ n ih =>
    show ((rrRun rr n).Acquire).2.transports = rr.transports
    rw [RoundRobinStrategy.Acquire_transports, ih]

theorem tmod_cast_succ (m k : Nat) (hk : 0 < k) :
    Int.tmod (((m % k : Nat) : Int) + 1) (k : Int) = (((m + 1) % k : Nat) : Int) := by
  have h1 : (0 : Int) ≤ ((m % k : Nat) : Int) + 1 := by positivity
  have h2 : (0 : Int) ≤ (k : Int) := by positivity
  rw [Int.tmod_eq_emod h1 h2]
  have hcast : (((m % k : Nat) : Int)) = (m : Int) % (k : Int) := by
    exact_mod_cast Int.natCast_mod m k
  rw [hcast, Int.add_emod, Int.emod_emod_of_dvd _ dvd_rfl, ← Int.add_emod]
  rw [Int.natCast_mod]
  push_cast
  ring_nf

theorem rrRun_lastSelected {H : Type} [Inhabited H] (ts : List H) (hne : ts ≠ []) :
    ∀ n, (rrRun (NewRoundRobinStrategy ts) n).lastSelected =
      if n = 0 then (-1 : Int) else (((n - 1) % ts.length : Nat) : Int) := by
  have hk : 0 < ts.length := List.length_pos.mpr hne
  have hlen0 : ∀ n, (rrRun (NewRoundRobinStrategy ts) n).transports.length ≠ 0 := by
    intro n
    rw [rrRun_transports]
    show ts.length ≠ 0
    omega
  intro n
  induction n with
  | zero => simp [rrRun, NewRoundRobinStrategy]
  | succ n ih =>
    show ((rrRun (NewRoundRobinStrategy ts) n).Acquire).2.lastSelected = _
    rw [RoundRobinStrategy.Acquire_lastSelected _ (hlen0 n), rrRun_transports, ih]
    show Int.tmod _ ((ts.length : Int)) = _
    by_cases hn : n = 0
    · subst hn
      norm_num [Int.tmod]
    · rw [if_neg hn, if_neg (Nat.succ_ne_zero n)]
      have hn1 : (n - 1) + 1 = n := by omega
      have hn2 : n + 1 - 1 = n := by omega
      rw [hn2, ← hn1]
      exact tmod_cast_succ (n - 1) ts.length hk

theorem minScanLoop_spec (rest : List Int) :
    ∀ (p : List Int) (mI : Nat) (mC : Int),
      mI < p.length → p.getD mI 0 = mC →
      (∀ j, j < p.length → mC ≤ p.getD j 0) →
      (∀ j, j < mI → mC < p.getD j 0) →
      (minScanLoop p.length mI mC rest).1 < (p ++ rest).length ∧
      (p ++ rest).getD (minScanLoop p.length mI mC rest).1 0 =
        (minScanLoop p.length mI mC rest).2 ∧
      (∀ j, j < (p ++ rest).length →
        (minScanLoop p.length mI mC rest).2 ≤ (p ++ rest).getD j 0) ∧
      (∀ j, j < (minScanLoop p.length mI mC rest).1 →
        (minScanLoop p.length mI mC rest).2 < (p ++ rest).getD j 0) := by
  induction rest with
  | nil =>
    intro p mI mC h1 h2 h3 h4
    simpa only [minScanLoop, List.append_nil] using ⟨h1, h2, h3, h4⟩
  | cons c rest ih =>
    intro p mI mC h1 h2 h3 h4
    have hassoc : (p ++ [c]) ++ rest = p ++ c :: rest := by
      rw [List.append_assoc, List.singleton_append]
    have hlen1 : (p ++ [c]).length = p.length + 1 := by simp
    have hat : (p ++ [c]).getD p.length 0 = c := by
      rw [List.getD_append_right _ _ _ _ (le_refl p.length)]
      simp
    show (minScanLoop p.length mI mC (c :: rest)).1 < _ ∧ _
    unfold minScanLoop
    by_cases hc : c < mC
    · rw [if_pos hc]
      have hprem2 : ∀ j, j < (p ++ [c]).length → c ≤ (p ++ [c]).getD j 0 := by
        intro j hj
        rw [hlen1] at hj
        rcases Nat.lt_or_ge j p.length with hjp | hjp
        · rw [List.getD_append _ _ _ _ hjp]
          exact le_of_lt (lt_of_lt_of_le hc (h3 j hjp))
        · have : j = p.length := by omega
          subst this
          rw [hat]
      have hprem3 : ∀ j, j < p.length → c < (p ++ [c]).getD j 0 := by
        intro j hj
        rw [List.getD_append _ _ _ _ hj]
        exact lt_of_lt_of_le hc (h3 j hj)
      have := ih (p ++ [c]) p.length c (by omega) hat hprem2 (by simpa [hlen1] using hprem3)
      rw [hassoc, hlen1] at this
      exact this
    · rw [if_neg hc]
      have hmc : mC ≤ c := not_lt.mp hc
      have hprem1 : mI < (p ++ [c]).length := by omega
      have hprem2 : (p ++ [c]).getD mI 0 = mC := by
        rw [List.getD_append _ _ _ _ h1]
        exact h2
      have hprem3 : ∀ j, j < (p ++ [c]).length → mC ≤ (p ++ [c]).getD j 0 := by
        intro j hj
        rw [hlen1] at hj
        rcases Nat.lt_or_ge j p.length with hjp | hjp
        · rw [List.getD_append _ _ _ _ hjp]
          exact h3 j hjp
        · have : j = p.length := by omega
          subst this
          rw [hat]
          exact hmc
      have hprem4 : ∀ j, j < mI → mC < (p ++ [c]).getD j 0 := by
        intro j hj
        rw [List.getD_append _ _ _ _ (lt_trans hj h1)]
        exact h4 j hj
      have := ih (p ++ [c]) mI mC hprem1 hprem2 hprem3 hprem4
      rw [hassoc, hlen1] at this
      exact this

theorem minScan_spec (counts : List Int) (hne : counts ≠ []) :
    (minScan counts).1 < counts.length ∧
    counts.getD (minScan counts).1 0 = (minScan counts).2 ∧
    (∀ j, j < counts.length → (minScan counts).2 ≤ counts.getD j 0) ∧
    (∀ j, j < (minScan counts).1 → (minScan counts).2 < counts.getD j 0) := by
  match counts, hne with
  | c :: t, _ =>
    have hm : minScan (c :: t) = minScanLoop 1 0 c t := by
      show minScanLoop 0 0 c (c :: t) = minScanLoop 1 0 c t
      rw [minScanLoop, if_neg (lt_irrefl c)]
    rw [hm]
    have hb : ∀ j, j < ([c] : List Int).length → c ≤ ([c] : List Int).getD j 0 := by
      intro j hj
      have hj0 : j = 0 := by
        simp at hj
        omega
      subst hj0
      simp
    have := minScanLoop_spec t [c] 0 c (by simp) (by simp) hb (by omega)
    simpa using this

/-- C1: on every dispatcher round trip, Acquire is called exactly once;
an Acquire error is returned untouched with no exchange and no Release;
otherwise the exchange runs through the acquired handle, Release is
called exactly once with that same handle on every exit path (normal
return, transport error, or panic-equivalent unwind), and the exchange's
outcome is returned unmodified.  The event log of the instrumented
strategy records the exact Acquire/Release calls. -/
theorem dispatcher_acquire_release {S H E R Req : Type} (st : Strategy S H E)
    (exec : H → Req → Outcome E R) (s : S) (req : Req) :
    (∀ e s1, st.acquire s = (Except.error e, s1) →
      StrategyTransport.RoundTrip (withLog st) exec (s, []) req =
        (Outcome.err e, (s1, [Event.acquireFailed e]))) ∧
    (∀ h s1, st.acquire s = (Except.ok h, s1) →
      StrategyTransport.RoundTrip (withLog st) exec (s, []) req =
        (exec h req, (st.release h s1, [Event.acquired h, Event.released h]))) := by
  constructor
  · intro e s1 hacq
    simp [StrategyTransport.RoundTrip, withLog, hacq]
  · intro h s1 hacq
    simp [StrategyTransport.RoundTrip, withLog, hacq]

/-- Witness for C1 at a concrete strategy whose exchange unwinds:
Release still runs, with the acquired handle. -/
theorem dispatcher_acquire_release_witness :
    StrategyTransport.RoundTrip
      (withLog { acquire := fun (s : Nat) => (Except.ok 5, s + 1),
                 release := fun (h : Nat) (s : Nat) => s + h })
      (fun (_ : Nat) (_ : Unit) => (Outcome.unwind : Outcome Nat Nat)) (1, []) () =
      (Outcome.unwind, (7, [Event.acquired 5, Event.released 5])) :=
  (dispatcher_acquire_release
    { acquire := fun (s : Nat) => (Except.ok 5, s + 1),
      release := fun (h : Nat) (s : Nat) => s + h }
    (fun (_ : Nat) (_ : Unit) => (Outcome.unwind : Outcome Nat Nat)) 1 ()).2 5 2 rfl

/-- C2: for a round-robin policy over a non-empty list of handles, the
`i`-th Acquire call (0-indexed) since construction returns
`handles[i mod k]`, and Release changes no policy state. -/
theorem roundRobin_cyclic {H : Type} [Inhabited H] (ts : List H) (hne : ts ≠ [])
    (i : Nat) :
    ((rrRun (NewRoundRobinStrategy ts) i).Acquire).1 =
      Except.ok (ts.getD (i % ts.length) default) ∧
    ∀ (rr : RoundRobinStrategy H) (h : H), rr.Release h = rr := by
  have hk : 0 < ts.length := List.length_pos.mpr hne
  have hlen0 : (rrRun (NewRoundRobinStrategy ts) i).transports.length ≠ 0 := by
    rw [rrRun_transports]
    show ts.length ≠ 0
    omega
  refine ⟨?_, fun rr h => rfl⟩
  rw [RoundRobinStrategy.Acquire_fst _ hlen0, rrRun_lastSelected ts hne i]
  have htl : (rrRun (NewRoundRobinStrategy ts) i).transports = ts := rrRun_transports _ i
  rw [htl]
  cases i with
  | zero =>
    norm_num [Int.tmod]
  | succ n =>
    rw [if_neg (Nat.succ_ne_zero n)]
    have hn2 : n + 1 - 1 = n := by omega
    rw [hn2, tmod_cast_succ n ts.length hk, Int.toNat_natCast]

/-- Witness for C2: two handles, third call (index 2) returns the first
handle again. -/
theorem roundRobin_cyclic_witness :
    ((rrRun (NewRoundRobinStrategy [10, 20]) 2).Acquire).1 =
      Except.ok (([10, 20] : List Nat).getD (2 % 2) default) :=
  (roundRobin_cyclic [10, 20] (by decide) 2).1

theorem getD_nonneg_of_forall (l : List Int) (hl : ∀ c ∈ l, 0 ≤ c) (j : Nat) :
    0 ≤ l.getD j 0 := by
  rcases Nat.lt_or_ge j l.length with h | h
  · rw [List.getD_eq_getElem _ _ h]
    exact hl _ (List.getElem_mem h)
  · rw [List.getD_eq_default _ _ h]

theorem set_forall_nonneg (l : List Int) (hl : ∀ c ∈ l, 0 ≤ c) (i : Nat) (v : Int)
    (hv : 0 ≤ v) : ∀ c ∈ l.set i v, 0 ≤ c := by
  intro c hc
  rcases List.mem_or_eq_of_mem_set hc with h | h
  · exact hl c h
  · rw [h]
    exact hv

theorem FillHolesStrategy.Acquire_nonneg {H : Type} [Inhabited H]
    (fh : FillHolesStrategy H) (hl : ∀ c ∈ fh.requestCounts, 0 ≤ c) :
    ∀ c ∈ (fh.Acquire).2.requestCounts, 0 ≤ c := by
  unfold FillHolesStrategy.Acquire
  split
  · exact hl
  · refine set_forall_nonneg _ hl _ _ ?_
    have := getD_nonneg_of_forall fh.requestCounts hl (minScan fh.requestCounts).1
    omega

theorem FillHolesStrategy.Release_nonneg {H : Type} [DecidableEq H]
    (fh : FillHolesStrategy H) (hl : ∀ c ∈ fh.requestCounts, 0 ≤ c) (t : H) :
    ∀ c ∈ (fh.Release t).requestCounts, 0 ≤ c := by
  unfold FillHolesStrategy.Release
  split
  · exact hl
  · refine set_forall_nonneg _ hl _ _ ?_
    split <;> omega

/-- C3: a fill-holes Acquire on a non-empty handle list returns the
handle whose in-flight counter is smallest, ties broken by the lowest
list index (entries before the chosen one are strictly larger), and
increments exactly that counter by one. -/
theorem fillHoles_acquire_min {H : Type} [Inhabited H] (fh : FillHolesStrategy H)
    (hne : fh.transports ≠ [])
    (hlen : fh.requestCounts.length = fh.transports.length) :
    ∃ j, j = (minScan fh.requestCounts).1 ∧
      j < fh.transports.length ∧
      (∀ i, i < fh.requestCounts.length →
        fh.requestCounts.getD j 0 ≤ fh.requestCounts.getD i 0) ∧
      (∀ i, i < j → fh.requestCounts.getD j 0 < fh.requestCounts.getD i 0) ∧
      (fh.Acquire).1 = Except.ok (fh.transports.getD j default) ∧
      (fh.Acquire).2.transports = fh.transports ∧
      (fh.Acquire).2.requestCounts =
        fh.requestCounts.set j (fh.requestCounts.getD j 0 + 1) := by
  have hlpos : 0 < fh.transports.length := List.length_pos.mpr hne
  have hcne : fh.requestCounts ≠ [] := by
    intro h
    rw [h] at hlen
    simp at hlen
    omega
  obtain ⟨hj1, hj2, hj3, hj4⟩ := minScan_spec fh.requestCounts hcne
  refine ⟨(minScan fh.requestCounts).1, rfl, by omega, ?_, ?_, ?_, ?_, ?_⟩
  · intro i hi
    rw [hj2]
    exact hj3 i hi
  · intro i hi
    rw [hj2]
    exact hj4 i hi
  · unfold FillHolesStrategy.Acquire
    rw [if_neg (by omega)]
  · unfold FillHolesStrategy.Acquire
    rw [if_neg (by omega)]
  · unfold FillHolesStrategy.Acquire
    rw [if_neg (by omega)]

/-- Witness for C3: counters `[2, 0, 0]` select index 1 (first minimum)
and only that counter is incremented. -/
theorem fillHoles_acquire_min_witness :
    ∃ j, j = (minScan ([2, 0, 0] : List Int)).1 ∧
      j < ([5, 6, 7] : List Nat).length ∧
      (∀ i, i < ([2, 0, 0] : List Int).length →
        ([2, 0, 0] : List Int).getD j 0 ≤ ([2, 0, 0] : List Int).getD i 0) ∧
      (∀ i, i < j → ([2, 0, 0] : List Int).getD j 0 < ([2, 0, 0] : List Int).getD i 0) ∧
      ((⟨[5, 6, 7], [2, 0, 0]⟩ : FillHolesStrategy Nat).Acquire).1 =
        Except.ok (([5, 6, 7] : List Nat).getD j default) ∧
      ((⟨[5, 6, 7], [2, 0, 0]⟩ : FillHolesStrategy Nat).Acquire).2.transports = [5, 6, 7] ∧
      ((⟨[5, 6, 7], [2, 0, 0]⟩ : FillHolesStrategy Nat).Acquire).2.requestCounts =
        ([2, 0, 0] : List Int).set j (([2, 0, 0] : List Int).getD j 0 + 1) :=
  fillHoles_acquire_min (⟨[5, 6, 7], [2, 0, 0]⟩ : FillHolesStrategy Nat)
    (by decide) (by decide)

/-- C4: fill-holes counters start at 0, stay nonnegative under every
sequence of Acquire/Release operations, and a Release whose matched
counter is already 0 leaves that counter at 0. -/
theorem fillHoles_counts_nonneg {H : Type} [DecidableEq H] [Inhabited H]
    (ts : List H) (ops : List (FHOp H)) :
    (∀ c ∈ (NewFillHolesStrategy ts).requestCounts, c = 0) ∧
    (∀ c ∈ (runFH (NewFillHolesStrategy ts) ops).requestCounts, 0 ≤ c) ∧
    (∀ (fh : FillHolesStrategy H) (t : H) (i : Nat),
      findTransportIdx fh.transports t = some i →
      fh.requestCounts.getD i 0 = 0 →
      (fh.Release t).requestCounts.getD i 0 = 0) := by
  refine ⟨fun c hc => List.eq_of_mem_replicate hc, ?_, ?_⟩
  · have hinv : ∀ (ops : List (FHOp H)) (fh : FillHolesStrategy H),
        (∀ c ∈ fh.requestCounts, 0 ≤ c) →
        ∀ c ∈ (runFH fh ops).requestCounts, 0 ≤ c := by
      intro ops
      induction ops with
      | nil => intro fh h; exact h
      | cons op rest ih =>
        intro fh h
        cases op with
        | acquire => exact ih _ (FillHolesStrategy.Acquire_nonneg fh h)
        | release t => exact ih _ (FillHolesStrategy.Release_nonneg fh h t)
    refine hinv ops _ ?_
    intro c hc
    rw [List.eq_of_mem_replicate hc]
  · intro fh t i hidx h0
    unfold FillHolesStrategy.Release
    rw [hidx]
    simp only [h0]
    rw [if_pos (by norm_num : (0 : Int) - 1 < 0)]
    rcases Nat.lt_or_ge i fh.requestCounts.length with hi | hi
    · rw [List.getD_eq_getElem _ _ (by simpa using hi)]
      exact List.getElem_set_self _
    · rw [List.set_eq_of_length_le hi, List.getD_eq_default _ _ hi]

/-- Witness for C4: an acquire followed by two releases of the same
handle leaves both counters nonnegative, and a release at counter 0
keeps it at 0. -/
theorem fillHoles_counts_nonneg_witness :
    (∀ c ∈ (runFH (NewFillHolesStrategy [5, 7])
        [FHOp.acquire, FHOp.release 5, FHOp.release 5]).requestCounts, 0 ≤ c) ∧
    ((⟨[5, 7], [0, 2]⟩ : FillHolesStrategy Nat).Release 5).requestCounts.getD 0 0 = 0 :=
  ⟨(fillHoles_counts_nonneg [5, 7]
      [FHOp.acquire, FHOp.release 5, FHOp.release 5]).2.1,
   (fillHoles_counts_nonneg ([5, 7] : List Nat) []).2.2
     (⟨[5, 7], [0, 2]⟩ : FillHolesStrategy Nat) 5 0 (by decide) (by decide)⟩

theorem getD_map_responseTime {H C : Type} [Inhabited H] [Inhabited C]
    (lr : List (leastResponseTimeRoundTripper H C)) (i : Nat) (h : i < lr.length) :
    (lr.map (fun w => w.responseTime)).getD i 0 = (lr.getD i default).responseTime := by
  rw [List.getD_eq_getElem _ _ (by simpa using h), List.getD_eq_getElem _ _ h,
    List.getElem_map]

theorem getD_mem {α : Type} [Inhabited α] (l : List α) (i : Nat) (h : i < l.length) :
    l.getD i default ∈ l := by
  rw [List.getD_eq_getElem _ _ h]
  exact List.getElem_mem h

/-- C5: a least-response-time Acquire on a non-empty wrapper list
returns the wrapper with the smallest current estimate, ties broken by
the lowest list index; with all estimates nonnegative a zero
(unmeasured) estimate is selected whenever one exists; neither Acquire
nor Release changes any policy state. -/
theorem lrt_acquire_min {H C : Type} [Inhabited H] [Inhabited C]
    (lr : List (leastResponseTimeRoundTripper H C)) (hne : lr ≠ []) :
    ∃ j, j = (minScan (lr.map (fun w => w.responseTime))).1 ∧
      j < lr.length ∧
      (LeastResponseTimeStrategy.Acquire lr).1 = Except.ok (lr.getD j default) ∧
      (LeastResponseTimeStrategy.Acquire lr).2 = lr ∧
      (∀ i, i < lr.length →
        (lr.getD j default).responseTime ≤ (lr.getD i default).responseTime) ∧
      (∀ i, i < j →
        (lr.getD j default).responseTime < (lr.getD i default).responseTime) ∧
      ((∀ w ∈ lr, 0 ≤ w.responseTime) → (∃ w ∈ lr, w.responseTime = 0) →
        (lr.getD j default).responseTime = 0) ∧
      (∀ (m : List (leastResponseTimeRoundTripper H C))
         (w : leastResponseTimeRoundTripper H C),
        LeastResponseTimeStrategy.Release m w = m) := by
  have hlpos : 0 < lr.length := List.length_pos.mpr hne
  have hmne : lr.map (fun w => w.responseTime) ≠ [] := by
    simpa using hne
  obtain ⟨hj1, hj2, hj3, hj4⟩ := minScan_spec _ hmne
  rw [List.length_map] at hj1
  refine ⟨(minScan (lr.map (fun w => w.responseTime))).1, rfl, hj1, ?_, ?_, ?_, ?_, ?_,
    fun m w => rfl⟩
  · unfold LeastResponseTimeStrategy.Acquire
    rw [if_neg (by omega)]
  · unfold LeastResponseTimeStrategy.Acquire
    rw [if_neg (by omega)]
  · intro i hi
    have h3 := hj3 i (by simpa using hi)
    rw [getD_map_responseTime _ _ hi] at h3
    rw [getD_map_responseTime _ _ hj1] at hj2
    rw [hj2]
    exact h3
  · intro i hi
    have hi' : i < lr.length := lt_trans hi hj1
    have h4 := hj4 i hi
    rw [getD_map_responseTime _ _ hi'] at h4
    rw [getD_map_responseTime _ _ hj1] at hj2
    rw [hj2]
    exact h4
  · intro hpos hzero
    obtain ⟨w, hw, hw0⟩ := hzero
    obtain ⟨i0, hi0, hwi⟩ := List.mem_iff_getElem.mp hw
    have hle : (lr.getD (minScan (lr.map (fun w => w.responseTime))).1 default).responseTime ≤
        (lr.getD i0 default).responseTime := by
      have h3 := hj3 i0 (by simpa using hi0)
      rw [getD_map_responseTime _ _ hi0] at h3
      rw [getD_map_responseTime _ _ hj1] at hj2
      rw [hj2]
      exact h3
    have hi0v : (lr.getD i0 default).responseTime = 0 := by
      rw [List.getD_eq_getElem _ _ hi0, hwi, hw0]
    have hge : 0 ≤ (lr.getD (minScan (lr.map (fun w => w.responseTime))).1 default).responseTime :=
      hpos _ (getD_mem lr _ hj1)
    omega

/-- Witness for C5, the spec's example: three wrappers whose completed
exchanges (run through the measuring wrapper with the last-value
calculator) took 100ms, 50ms and 150ms; the next Acquire returns the
50ms wrapper. -/
theorem lrt_acquire_min_witness :
    (leastResponseTimeRoundTripper.RoundTrip LeastResponseTimeLastResponseTimeCalculator
        (fun (_ : Nat) (_ : Unit) => (Except.ok () : Except Unit Unit)) 50000000
        (⟨2, 0, ()⟩ : leastResponseTimeRoundTripper Nat Unit) ()).2 = ⟨2, 50000000, ()⟩ ∧
    (LeastResponseTimeStrategy.Acquire
        ([⟨1, 100000000, ()⟩, ⟨2, 50000000, ()⟩, ⟨3, 150000000, ()⟩] :
          List (leastResponseTimeRoundTripper Nat Unit))).1 =
      Except.ok ⟨2, 50000000, ()⟩ := by
  refine ⟨rfl, ?_⟩
  obtain ⟨j, hj, _, hacq, _⟩ := lrt_acquire_min
    ([⟨1, 100000000, ()⟩, ⟨2, 50000000, ()⟩, ⟨3, 150000000, ()⟩] :
      List (leastResponseTimeRoundTripper Nat Unit)) (by simp)
  rw [hacq, hj]
  rfl

/-- C10: the measuring wrapper updates its estimate on every completed
exchange regardless of outcome: after `RoundTrip` the stored estimate is
the calculator applied to the measured elapsed time, even when the
underlying exchange returned an error, and the exchange's
response/error is returned unmodified. -/
theorem lrt_wrapper_updates_on_error {H C E Resp Req : Type}
    (responseTimeCalculator : C → Int → Int × C) (exec : H → Req → Except E Resp)
    (elapsed : Int) (l : leastResponseTimeRoundTripper H C) (req : Req) :
    ((l.RoundTrip responseTimeCalculator exec elapsed req).1 =
      exec l.roundTripper req) ∧
    ((l.RoundTrip responseTimeCalculator exec elapsed req).2.responseTime =
      (responseTimeCalculator l.calcState elapsed).1) ∧
    ((l.RoundTrip responseTimeCalculator exec elapsed req).2.calcState =
      (responseTimeCalculator l.calcState elapsed).2) ∧
    (∀ e, exec l.roundTripper req = Except.error e →
      (l.RoundTrip responseTimeCalculator exec elapsed req).1 = Except.error e ∧
      (l.RoundTrip responseTimeCalculator exec elapsed req).2.responseTime =
        (responseTimeCalculator l.calcState elapsed).1) := by
  refine ⟨rfl, rfl, rfl, fun e he => ⟨?_, rfl⟩⟩
  show exec l.roundTripper req = Except.error e
  exact he

/-- Witness for C10: a failing exchange still updates the estimate to
the measured 42ns. -/
theorem lrt_wrapper_updates_on_error_witness :
    ((⟨7, 3, ()⟩ : leastResponseTimeRoundTripper Nat Unit).RoundTrip
        LeastResponseTimeLastResponseTimeCalculator
        (fun (_ : Nat) (_ : Unit) => (Except.error "boom" : Except String Nat)) 42 ()).1 =
      Except.error "boom" ∧
    ((⟨7, 3, ()⟩ : leastResponseTimeRoundTripper Nat Unit).RoundTrip
        LeastResponseTimeLastResponseTimeCalculator
        (fun (_ : Nat) (_ : Unit) => (Except.error "boom" : Except String Nat)) 42 ()).2.responseTime = 42 :=
  (lrt_wrapper_updates_on_error LeastResponseTimeLastResponseTimeCalculator
    (fun (_ : Nat) (_ : Unit) => (Except.error "boom" : Except String Nat)) 42
    (⟨7, 3, ()⟩ : leastResponseTimeRoundTripper Nat Unit) ()).2.2.2 "boom" rfl

/-- Counterexample for C6 as stated: with weight 0.8 over the samples
100, 200, 150, 50 (ms, as exact rationals) the running estimates are
not 100, 160, 152, 71.2 — the second estimate is 180, not 160. -/
theorem weightedAverage_example_counterexample :
    weightedAverageOutputs { weight := 4/5, previousResponseTime := 0 }
        [100, 200, 150, 50] = [100, 180, 156, 356/5] ∧
    weightedAverageOutputs { weight := 4/5, previousResponseTime := 0 }
        [100, 200, 150, 50] ≠ [100, 160, 152, 356/5] := by
  constructor <;> norm_num [weightedAverageOutputs, weightedAverageStep]

/-- C6 (amended): the weighted-average closure seeds its estimate with
the first sample and thereafter computes
`w*new_sample + (1-w)*prior_estimate`; with w = 0.8 over the samples
100, 200, 150, 50 (ms) the running estimates are 100, 180, 156, 71.2
and the final estimate is 71.2 ms. -/
theorem weightedAverage_fold (st : WeightedAverageState) (s : Rat) :
    (st.previousResponseTime ≠ 0 →
      (weightedAverageStep st s).1 =
        st.weight * s + (1 - st.weight) * st.previousResponseTime) ∧
    ((weightedAverageStep { weight := st.weight, previousResponseTime := 0 } s).1 = s) ∧
    weightedAverageOutputs { weight := 4/5, previousResponseTime := 0 }
        [100, 200, 150, 50] = [100, 180, 156, 356/5] ∧
    (weightedAverageOutputs { weight := 4/5, previousResponseTime := 0 }
        [100, 200, 150, 50]).getLast? = some (356/5) := by
  refine ⟨fun hprev => ?_, ?_, ?_, ?_⟩
  · unfold weightedAverageStep
    rw [if_neg hprev]
  · unfold weightedAverageStep
    rw [if_pos rfl]
  · norm_num [weightedAverageOutputs, weightedAverageStep]
  · norm_num [weightedAverageOutputs, weightedAverageStep, List.getLast?]

/-- Witness for C6's amended theorem: one non-seeding step with weight
0.8, prior 100 and sample 200 yields 180. -/
theorem weightedAverage_fold_witness :
    (weightedAverageStep { weight := 4/5, previousResponseTime := 100 } 200).1 =
      (4/5 : Rat) * 200 + (1 - 4/5) * 100 :=
  (weightedAverage_fold { weight := 4/5, previousResponseTime := 100 } 200).1 (by decide)

/-- C7: constructing the weighted-average calculator fails with
InvalidWeight for every weight outside [0,1] and succeeds for every
weight in [0,1]; constructing the moving-average calculator fails with
InvalidWindowSize for every window size ≤ 0 and succeeds for every
positive window size; both failures happen at construction, before any
sample is processed. -/
theorem calculator_construction_validation :
    (∀ w : Rat, w < 0 ∨ 1 < w →
      LeastResponseTimeWeightedAverageCalculator w =
        Except.error CalcError.invalidWeight) ∧
    (∀ w : Rat, 0 ≤ w → w ≤ 1 →
      LeastResponseTimeWeightedAverageCalculator w =
        Except.ok { weight := w, previousResponseTime := 0 }) ∧
    (∀ n : Int, n ≤ 0 →
      LeastResponseTimeMovingAverageCalculator n =
        Except.error CalcError.invalidWindowSize) ∧
    (∀ n : Int, 0 < n →
      LeastResponseTimeMovingAverageCalculator n =
        Except.ok { windowSize := n, buffer := List.replicate n.toNat 0,
                    index := 0, count := 0, sum := 0 }) := by
  refine ⟨fun w hw => ?_, fun w h0 h1 => ?_, fun n hn => ?_, fun n hn => ?_⟩
  · unfold LeastResponseTimeWeightedAverageCalculator
    rw [if_pos hw]
  · unfold LeastResponseTimeWeightedAverageCalculator
    rw [if_neg (by push_neg; exact ⟨h0, h1⟩)]
  · unfold LeastResponseTimeMovingAverageCalculator
    rw [if_pos hn]
  · unfold LeastResponseTimeMovingAverageCalculator
    rw [if_neg (by omega)]

/-- Witness for C7: weight 2 is rejected, weight 1/2 accepted; window
size 0 is rejected, window size 3 accepted. -/
theorem calculator_construction_validation_witness :
    LeastResponseTimeWeightedAverageCalculator 2 =
      Except.error CalcError.invalidWeight ∧
    LeastResponseTimeWeightedAverageCalculator (1/2) =
      Except.ok { weight := 1/2, previousResponseTime := 0 } ∧
    LeastResponseTimeMovingAverageCalculator 0 =
      Except.error CalcError.invalidWindowSize ∧
    LeastResponseTimeMovingAverageCalculator 3 =
      Except.ok { windowSize := 3, buffer := List.replicate (3 : Int).toNat 0,
                  index := 0, count := 0, sum := 0 } :=
  ⟨calculator_construction_validation.1 2 (by norm_num),
   calculator_construction_validation.2.1 (1/2) (by norm_num) (by norm_num),
   calculator_construction_validation.2.2.1 0 (by norm_num),
   calculator_construction_validation.2.2.2 3 (by norm_num)⟩

/-- C8: on an empty handle list, Acquire on each of the three built-in
policies fails with the no-transports error and leaves the policy state
unchanged. -/
theorem empty_handles_acquire_fails {H C : Type} [Inhabited H] [Inhabited C] :
    (∀ ls : Int,
      RoundRobinStrategy.Acquire (⟨[], ls⟩ : RoundRobinStrategy H) =
        (Except.error StrategyError.noTransportsAvailable, ⟨[], ls⟩)) ∧
    (∀ counts : List Int,
      FillHolesStrategy.Acquire (⟨[], counts⟩ : FillHolesStrategy H) =
        (Except.error StrategyError.noTransportsAvailable, ⟨[], counts⟩)) ∧
    (LeastResponseTimeStrategy.Acquire
        ([] : List (leastResponseTimeRoundTripper H C)) =
      (Except.error StrategyError.noTransportsAvailable, [])) := by
  refine ⟨fun ls => ?_, fun counts => ?_, ?_⟩ <;> rfl

/-- C9: the transport factory dispatches on the parsed scheme: an
unparseable descriptor errors; `direct` yields the direct transport
capped at one connection per host; `http`/`https` yield an HTTP-proxy
transport through that URL capped at 1; every other scheme yields a
SOCKS5-dialing transport with TLS verification relaxed and the same
cap, provided the dialer can be built. -/
theorem transportFactory_dispatch (parse : String → Option ParsedURL)
    (mkDialer : String → Except FactoryError Unit) (s : String) :
    (parse s = none →
      DefaultTransportFactory parse mkDialer s =
        Except.error FactoryError.invalidDescriptor) ∧
    (∀ u, parse s = some u → u.scheme = "direct" →
      DefaultTransportFactory parse mkDialer s =
        Except.ok (TransportConfig.direct 1 1)) ∧
    (∀ u, parse s = some u → (u.scheme = "http" ∨ u.scheme = "https") →
      DefaultTransportFactory parse mkDialer s =
        Except.ok (TransportConfig.httpProxy s 1)) ∧
    (∀ u, parse s = some u → u.scheme ≠ "http" → u.scheme ≠ "https" →
      u.scheme ≠ "direct" → mkDialer s = Except.ok () →
      DefaultTransportFactory parse mkDialer s =
        Except.ok (TransportConfig.socks5 s true 1)) := by
  refine ⟨fun hp => ?_, fun u hp hd => ?_, fun u hp hh => ?_,
    fun u hp h1 h2 h3 hdial => ?_⟩
  · unfold DefaultTransportFactory
    rw [hp]
  · unfold DefaultTransportFactory
    rw [hp]
    show (if u.scheme = "http" ∨ u.scheme = "https" then ProxyHTTPTransport parse s
      else if u.scheme = "direct" then DirectTransport
      else ProxySocks5Transport mkDialer s) = _
    rw [hd]
    rw [if_neg (by decide), if_pos rfl]
    rfl
  · unfold DefaultTransportFactory
    rw [hp]
    show (if u.scheme = "http" ∨ u.scheme = "https" then ProxyHTTPTransport parse s
      else if u.scheme = "direct" then DirectTransport
      else ProxySocks5Transport mkDialer s) = _
    rw [if_pos hh]
    unfold ProxyHTTPTransport
    rw [hp]
  · unfold DefaultTransportFactory
    rw [hp]
    show (if u.scheme = "http" ∨ u.scheme = "https" then ProxyHTTPTransport parse s
      else if u.scheme = "direct" then DirectTransport
      else ProxySocks5Transport mkDialer s) = _
    rw [if_neg (fun h => h.elim h1 h2), if_neg h3]
    unfold ProxySocks5Transport
    rw [hdial]

/-- Witness for C9: a parser that reads the whole descriptor as the
scheme, and an always-succeeding dialer. -/
theorem transportFactory_dispatch_witness :
    DefaultTransportFactory (fun d => some ⟨d, ""⟩) (fun _ => Except.ok ()) "direct" =
      Except.ok (TransportConfig.direct 1 1) ∧
    DefaultTransportFactory (fun d => some ⟨d, ""⟩) (fun _ => Except.ok ()) "http" =
      Except.ok (TransportConfig.httpProxy "http" 1) ∧
    DefaultTransportFactory (fun d => some ⟨d, ""⟩) (fun _ => Except.ok ()) "socks5host" =
      Except.ok (TransportConfig.socks5 "socks5host" true 1) ∧
    DefaultTransportFactory (fun _ => none) (fun _ => Except.ok ()) "bad" =
      Except.error FactoryError.invalidDescriptor :=
  ⟨(transportFactory_dispatch (fun d => some ⟨d, ""⟩) (fun _ => Except.ok ())
      "direct").2.1 ⟨"direct", ""⟩ rfl rfl,
   (transportFactory_dispatch (fun d => some ⟨d, ""⟩) (fun _ => Except.ok ())
      "http").2.2.1 ⟨"http", ""⟩ rfl (Or.inl rfl),
   (transportFactory_dispatch (fun d => some ⟨d, ""⟩) (fun _ => Except.ok ())
      "socks5host").2.2.2 ⟨"socks5host", ""⟩ rfl (by decide) (by decide) (by decide) rfl,
   (transportFactory_dispatch (fun _ => none) (fun _ => Except.ok ()) "bad").1 rfl⟩

end HackTheConn
